import Mathlib

/-!
Verification of the `rzx` remote ZX filesystem client (package `rzx`).

The Go source is embedded shallowly:

* strings are Lean `String`s, but the character-level operations
  (`strings.Split(addr, "!")`, `strings.LastIndexByte`, `strings.Contains`,
  `sort.StringSlice`) are modelled on `List Char`, which is faithful because
  every separator involved is a single ASCII character and UTF-8 byte order
  agrees with codepoint order;
* Go `error` values are `Option String` (`none` is the nil error);
* clive channels carry a close reason; a channel is closed at most once
  effectively (the first close wins, later closes are no-ops).  Each RPC
  envelope goroutine is modelled as a pure function from an environment
  script (whether the outbound send is accepted, the inbound message list,
  the inbound terminal error, how many caller-side sends are accepted) to
  the list of channel events it performs, in program order;
* the mux, the auth context and the TLS configuration are opaque and are
  modelled by identifiers (`Nat`) / a flag;
* Go maps (`fs.trees`, the dial cache) are association lists; `map[k]=v`
  is modelled by an insert that keeps keys unique (for `trees`) or by
  consing the new binding in front (for the dial cache, whose only reader
  is a first-match lookup).
-/

/-- Go `error`: `none` is the nil error, `some s` an error with text `s`. -/
abbrev GoErr := Option String

/-- Modelled from the spec: the `ErrBadMsg` sentinel (its definition lives in
the package's message file, which is not under `src/`; only its identity as a
fixed local error matters). -/
def ErrBadMsg : GoErr := some "bad msg"

/-- A directory entry (`zx.Dir`): an ordered map from string keys to string
values.  Only lookup of the `type` key and value-copying are needed here. -/
abbrev Dir := List (String × String)

/-- `d["type"]` — first-match lookup in the ordered map, Go's zero value `""`
when absent. -/
def dirType (d : Dir) : String :=
  match d.lookup "type" with
  | some v => v
  | none => ""

/-- An inbound message (`face{}` payload) as the envelopes type-switch on it:
a directory entry, a string, a byte chunk, or anything else. -/
inductive InMsg where
  | dirM : Dir → InMsg
  | strM : String → InMsg
  | bytesM : List Nat → InMsg
  | otherM : InMsg
deriving Repr, DecidableEq

/-- Outcome of an external call (mux dial, auth exchange). -/
inductive Res (α : Type) where
  | ok : α → Res α
  | err : String → Res α
deriving Repr, DecidableEq

/-! ### Character-list string utilities (models of the `strings` package) -/

/-- `strings.Split(addr, "!")` on the character list: split at every `'!'`.
Splitting the empty list yields `[[]]`, exactly as `strings.Split("", "!")`
yields `[""]`. -/
def splitBang : List Char → List (List Char)
  | [] => [[]]
  | c :: rest =>
    match splitBang rest with
    | t :: ts => if c = '!' then [] :: t :: ts else (c :: t) :: ts
    | [] => [[]]

/-- Re-join a token list with `'!'` separators (inverse of `splitBang`). -/
def joinBang : List (List Char) → List Char
  | [] => []
  | [t] => t
  | t :: ts => t ++ '!' :: joinBang ts

/-- `strings.LastIndexByte(addr, '!')`-based split: everything before the
last `'!'` and everything after it; `none` when there is no `'!'` (the Go
code panics with "bad address" there). -/
def splitaddrL : List Char → Option (List Char × List Char)
  | [] => none
  | c :: rest =>
    match splitaddrL rest with
    | some p => some (c :: p.1, p.2)
    | none => if c = '!' then some ([], rest) else none

/-- `startsWithL s pat`: `pat` is a leading run of `s`. -/
def startsWithL : List Char → List Char → Bool
  | _, [] => true
  | [], _ :: _ => false
  | x :: xs, y :: ys => x = y && startsWithL xs ys

/-- `strings.Contains(s, pat)` on character lists. -/
def hasSubL (pat : List Char) : List Char → Bool
  | [] => pat.isEmpty
  | c :: rest => startsWithL (c :: rest) pat || hasSubL pat rest

/-- `strings.Contains(s, sub)`. -/
def strContains (s sub : String) : Bool := hasSubL sub.data s.data

/-- Byte/codepoint-lexicographic `≤` on character lists: the order used by
`sort.StringSlice` (UTF-8 byte order coincides with codepoint order). -/
def strLeB : List Char → List Char → Bool
  | [], _ => true
  | _ :: _, [] => false
  | x :: xs, y :: ys =>
    if x.toNat = y.toNat then strLeB xs ys else decide (x.toNat < y.toNat)

/-- Lexicographic `≤` on strings as Go's `sort` compares them. -/
def goStrLe (a b : String) : Bool := strLeB a.data b.data

/-! ### Address resolver -/

/-- `FillAddr` (source lines 60–72): canonicalise by `!`-token count. -/
def FillAddr (addr : String) : String :=
  match splitBang addr.data with
  | [h] => ⟨"tcp!".data ++ h ++ "!zx!main".data⟩
  | [h, p] => ⟨"tcp!".data ++ h ++ "!".data ++ p ++ "!main".data⟩
  | [_, _, _] => ⟨addr.data ++ "!main".data⟩
  | _ => addr

/-! ### Client handle -/

/-- The client handle `Fs` (source lines 17–31).  The debugging flags, the
mutex, and the close-wait channel are omitted: the first are I/O-only, the
last two are concurrency-control with no algorithmic content in the claims.
`m` and `ai` stand for the opaque mux and auth context as identifiers. -/
structure Fs where
  addr : String
  raddr : String
  tc : Bool := false
  ai : Option Nat := none
  trees : List String := []
  fsys : String := ""
  m : Option Nat := none
  closed : Bool := true
deriving Repr, DecidableEq

/-- Insert a key into the `trees` map, keeping the key list duplicate-free
(Go map keys are unique). -/
def treeInsert (s : String) (l : List String) : List String :=
  if l.contains s then l else l ++ [s]

/-- The process-wide dial cache `dials`: an association list read by
first-match lookup. -/
abbrev Cache := List (String × Fs)

/-- `dials[addr]` lookup (`dialed`, source lines 49–54). -/
def cacheLookup (c : Cache) (k : String) : Option Fs := c.lookup k

/-- `dials[k] = v` (the only reader is a first-match lookup). -/
def cacheInsert (k : String) (v : Fs) (c : Cache) : Cache := (k, v) :: c

/-! ### Scratch checks for the utilities -/

example : splitBang "h!p!e".data = ["h".data, "p".data, "e".data] := by decide
example : FillAddr "h" = "tcp!h!zx!main" := by decide
example : FillAddr "h!p" = "tcp!h!p!main" := by decide
example : FillAddr "h!p!e" = "h!p!e!main" := by decide
example : FillAddr "a!b!c!d" = "a!b!c!d" := by decide
example : splitaddrL "tcp!h!zx!main".data = some ("tcp!h!zx".data, "main".data) := by decide
example : strContains "x: auth disabled y" "auth disabled" = true := by decide
example : strContains "boom" "auth disabled" = false := by decide

/-! ### Protocol messages -/

/-- Operation codes (§6 of the protocol catalogue). -/
inductive Op where
  | Ttrees | Tstat | Twstat | Tremove | Tremoveall | Tmove | Tlink
  | Tget | Tput | Tfind | Tfindget
deriving Repr, DecidableEq

/-- The request message `Msg`; only the fields an operation uses are
populated (zero values otherwise). -/
structure Msg where
  op : Op
  fsys : String := ""
  path : String := ""
  toP : String := ""
  d : Dir := []
  off : Int := 0
  count : Int := 0
  pred : String := ""
  spref : String := ""
  dpref : String := ""
  depth : Int := 0
deriving Repr, DecidableEq

/-- The request each operation sends (source lines 261–268, 296–314, 320,
364, 418, 455). -/
def statMsg (fs : Fs) (p : String) : Msg := { op := .Tstat, fsys := fs.fsys, path := p }

def wstatMsg (fs : Fs) (p : String) (d : Dir) : Msg :=
  { op := .Twstat, fsys := fs.fsys, path := p, d := d }

def removeMsg (fs : Fs) (p : String) : Msg := { op := .Tremove, fsys := fs.fsys, path := p }

def removeAllMsg (fs : Fs) (p : String) : Msg := { op := .Tremoveall, fsys := fs.fsys, path := p }

def moveMsg (fs : Fs) (frm toPath : String) : Msg :=
  { op := .Tmove, fsys := fs.fsys, path := frm, toP := toPath }

def linkMsg (fs : Fs) (oldp newp : String) : Msg :=
  { op := .Tlink, fsys := fs.fsys, path := newp, toP := oldp }

def getMsg (fs : Fs) (p : String) (off count : Int) : Msg :=
  { op := .Tget, fsys := fs.fsys, path := p, off := off, count := count }

def putMsg (fs : Fs) (p : String) (d : Dir) (off : Int) : Msg :=
  { op := .Tput, fsys := fs.fsys, path := p, d := d, off := off }

/-! ### Envelope traces

Each envelope goroutine runs sequentially; its interaction with its call's
channels is a list of events in program order.  The environment scripts the
other endpoints: whether the mux accepts the outbound request, the inbound
message sequence and its terminal close reason, and how many caller-side
sends succeed before the caller has closed the result channel. -/

/-- A channel event performed by an envelope, in program order:
values sent on the caller's result channel `rc`, close operations on `rc`,
on the call's inbound half `c.In`, on its outbound half `c.Out`, and on the
caller's Put data channel `dc`, plus data chunks forwarded outbound. -/
inductive Ev where
  | rcDir : Dir → Ev
  | rcBytes : List Nat → Ev
  | rcMsg : InMsg → Ev
  | rcErrV : GoErr → Ev
  | closeRc : GoErr → Ev
  | closeIn : GoErr → Ev
  | closeOut : GoErr → Ev
  | closeDc : GoErr → Ev
  | outData : List Nat → Ev
deriving Repr, DecidableEq

/-- Environment script for a single call. `sendOk`: the request send on
`c.Out` is accepted. `outErr`: `cerror(c.Out)` when it is not. `ins`: the
inbound messages, delivered in order before the peer closes `c.In` with
reason `inErr`. `rcAcc`: how many sends on the caller's result channel are
accepted before the caller has closed it with reason `rcErr`. -/
structure CallEnv where
  sendOk : Bool
  outErr : GoErr := none
  ins : List InMsg := []
  inErr : GoErr := none
  rcAcc : Nat := 0
  rcErr : GoErr := none
deriving Repr, DecidableEq

/-- Receive one message: on an exhausted (hence peer-closed) channel the
zero value `none` is read and `cerror` shows `inErr`; otherwise the head is
read and `cerror` shows the terminal reason only once the channel has
drained. -/
def recv1 (ins : List InMsg) (inErr : GoErr) : Option InMsg × GoErr :=
  match ins with
  | [] => (none, inErr)
  | v :: rest => (some v, if rest.isEmpty then inErr else none)

/-- `dircall` (source lines 232–259): send the request, receive one message,
publish it if it is a directory entry, close `rc` and `c.In` with the
observed error (`ErrBadMsg` on a wrong payload type).  On a rejected send
only `c.In` is closed, with `cerror(c.Out)`. -/
def dircallT (env : CallEnv) : List Ev :=
  if env.sendOk then
    Ev.closeOut none ::
    (match recv1 env.ins env.inErr with
     | (some (.dirM d), none) =>
       (if 1 ≤ env.rcAcc then [Ev.rcDir d] else []) ++ [Ev.closeRc none, Ev.closeIn none]
     | (_, none) => [Ev.closeRc ErrBadMsg, Ev.closeIn ErrBadMsg]
     | (_, some e) => [Ev.closeRc (some e), Ev.closeIn (some e)])
  else [Ev.closeIn env.outErr]

/-- `errcall` (source lines 271–294): send the request, drain one inbound
message, close `c.In` with the observed error, deliver that error on `rc`
and close `rc` with it.  On a rejected send only `c.In` is closed. -/
def errcallT (env : CallEnv) : List Ev :=
  if env.sendOk then
    let err := (recv1 env.ins env.inErr).2
    [Ev.closeOut none, Ev.closeIn err] ++
      (if 1 ≤ env.rcAcc then [Ev.rcErrV err] else []) ++ [Ev.closeRc err]
  else [Ev.closeIn env.outErr]

/-- The inbound loop of `Get` (source lines 328–350): forward byte chunks,
`ErrBadMsg` on a wrong payload type (note the close of `rc` both inside the
loop and after it), propagate a caller-side cancellation to `c.In`. -/
def getLoop (inErr : GoErr) (rcErr : GoErr) : List InMsg → Nat → List Ev
  | [], _ => [Ev.closeRc inErr]
  | m :: rest, acc =>
    match m with
    | .bytesM b =>
      if 1 ≤ acc then Ev.rcBytes b :: getLoop inErr rcErr rest (acc - 1)
      else [Ev.closeIn rcErr, Ev.closeRc rcErr]
    | _ => [Ev.closeIn ErrBadMsg, Ev.closeRc ErrBadMsg, Ev.closeRc ErrBadMsg]

/-- `Get` (source lines 316–353). -/
def getT (env : CallEnv) : List Ev :=
  if env.sendOk then Ev.closeOut none :: getLoop env.inErr env.rcErr env.ins env.rcAcc
  else [Ev.closeIn env.outErr]

/-- The inbound loop of `Find` (source lines 429–447): like `Get` with
directory entries. -/
def findLoop (inErr : GoErr) (rcErr : GoErr) : List InMsg → Nat → List Ev
  | [], _ => [Ev.closeRc inErr]
  | m :: rest, acc =>
    match m with
    | .dirM d =>
      if 1 ≤ acc then Ev.rcDir d :: findLoop inErr rcErr rest (acc - 1)
      else [Ev.closeIn rcErr, Ev.closeRc rcErr]
    | _ => [Ev.closeIn ErrBadMsg, Ev.closeRc ErrBadMsg, Ev.closeRc ErrBadMsg]

/-- `Find` (source lines 415–450). -/
def findT (env : CallEnv) : List Ev :=
  if env.sendOk then Ev.closeOut none :: findLoop env.inErr env.rcErr env.ins env.rcAcc
  else [Ev.closeIn env.outErr]

/-- The inbound loop of `FindGet` (source lines 466–471): forward every
message verbatim, whatever its type. -/
def findgetLoop (inErr : GoErr) (rcErr : GoErr) : List InMsg → Nat → List Ev
  | [], _ => [Ev.closeRc inErr]
  | m :: rest, acc =>
    if 1 ≤ acc then Ev.rcMsg m :: findgetLoop inErr rcErr rest (acc - 1)
    else [Ev.closeIn rcErr, Ev.closeRc rcErr]

/-- `FindGet` (source lines 452–475). -/
def findgetT (env : CallEnv) : List Ev :=
  if env.sendOk then Ev.closeOut none :: findgetLoop env.inErr env.rcErr env.ins env.rcAcc
  else [Ev.closeIn env.outErr]

/-! ### Put -/

/-- Environment script for `Put`: the entry's `type` value, whether the
caller supplied a data channel, the chunks on it and its close reason,
how many outbound sends the mux accepts in total (the header is the first),
`cerror(c.Out)` after a rejected send, and the usual inbound and
result-channel script. -/
structure PutEnv where
  dtype : String := ""
  dcSupplied : Bool := true
  dcMsgs : List (List Nat) := []
  dcErr : GoErr := none
  outAcc : Nat := 0
  outErr : GoErr := none
  ins : List InMsg := []
  inErr : GoErr := none
  rcAcc : Nat := 0
  rcErr : GoErr := none
deriving Repr, DecidableEq

/-- The single-reply tail of `Put` (source lines 397–410). -/
def putReply (env : PutEnv) : List Ev :=
  match recv1 env.ins env.inErr with
  | (some (.dirM d), none) =>
    (if 1 ≤ env.rcAcc then [Ev.rcDir d] else []) ++ [Ev.closeIn none, Ev.closeRc none]
  | (_, none) => [Ev.closeIn ErrBadMsg, Ev.closeRc ErrBadMsg]
  | (_, some e) => [Ev.closeIn (some e), Ev.closeRc (some e)]

/-- The forwarding loop of `Put` (source lines 374–395): forward caller
chunks outbound; on a rejected outbound send close `dc`, `c.In` and `rc`
with `cerror(c.Out)` and abort; after the loop close `c.Out` with the
caller channel's close reason, aborting (closing `c.In` and `rc` with it)
when that reason is an error.  `replaced` marks the substituted fresh
channel, whose close operations do not touch the caller's `dc`.  Returns
the events and whether `Put` proceeds to its reply phase. -/
def putForward (outErr dcErr : GoErr) (replaced : Bool) :
    List (List Nat) → Nat → List Ev × Bool
  | [], _ =>
    (match dcErr with
     | none => ([Ev.closeOut none], true)
     | some e => ([Ev.closeOut (some e), Ev.closeIn (some e), Ev.closeRc (some e)], false))
  | b :: rest, acc =>
    if 1 ≤ acc then
      let r := putForward outErr dcErr replaced rest (acc - 1)
      (Ev.outData b :: r.1, r.2)
    else
      ((if replaced then [] else [Ev.closeDc outErr]) ++
        [Ev.closeIn outErr, Ev.closeRc outErr], false)

/-- `Put` (source lines 355–413).  When the caller supplied no data channel
or the entry's type is `"d"`, the local `dc` variable is rebound to a fresh
already-closed channel — the caller's channel is not touched; with type
`"d"` the outbound half is closed right after the header and the data loop
is skipped. -/
def putT (env : PutEnv) : List Ev :=
  let replaced := !env.dcSupplied || env.dtype = "d"
  let msgs := if replaced then [] else env.dcMsgs
  let dcErr := if replaced then none else env.dcErr
  if 1 ≤ env.outAcc then
    if env.dtype = "d" then Ev.closeOut none :: putReply env
    else
      let r := putForward env.outErr dcErr replaced msgs (env.outAcc - 1)
      r.1 ++ (if r.2 then putReply env else [])
  else [Ev.closeIn env.outErr]

/-- The close operations an envelope performs on the caller's result
channel, with their reasons, in order. -/
def rcCloses (t : List Ev) : List GoErr :=
  t.filterMap (fun e => match e with | .closeRc r => some r | _ => none)

/-- The values an `errcall` delivers on its result channel. -/
def rcErrVals (t : List Ev) : List GoErr :=
  t.filterMap (fun e => match e with | .rcErrV r => some r | _ => none)

/-- The close operations an envelope performs on the caller's data
channel. -/
def dcCloses (t : List Ev) : List GoErr :=
  t.filterMap (fun e => match e with | .closeDc r => some r | _ => none)

/-- The data chunks an envelope forwards to the outbound half. -/
def outDatas (t : List Ev) : List (List Nat) :=
  t.filterMap (fun e => match e with | .outData b => some b | _ => none)

/-! ### Tree discovery, tree listing, tree rebinding -/

/-- The inbound loop of `getTrees` (source lines 199–208): record each
string reply as a served tree; a non-string reply returns `ErrBadMsg` at
once.  Returns the error of an early return (`none` when the stream drained
to completion), the updated tree set, and whether the loop completed. -/
def gtLoop : List InMsg → List String → GoErr × List String × Bool
  | [], trees => (none, trees, true)
  | m :: rest, trees =>
    match m with
    | .strM s => gtLoop rest (treeInsert s trees)
    | _ => (ErrBadMsg, trees, false)

/-- `getTrees` (source lines 189–211): send a `Ttrees` request with
`Fsys="main"`, drain the string replies into the tree set, then insert
`"main"` by convention and return the inbound terminal error.  A rejected
send returns `cerror(c.Out)` with the set untouched; a bad reply returns
`ErrBadMsg` before `"main"` is inserted. -/
def getTrees (env : CallEnv) (trees : List String) : GoErr × List String :=
  if env.sendOk then
    match gtLoop env.ins trees with
    | (_, trees1, true) => (env.inErr, treeInsert "main" trees1)
    | (e, trees1, false) => (e, trees1)
  else (env.outErr, trees)

/-- `Trees` (source lines 213–220): the keys of the tree map, sorted
ascending.  Go iterates the map in unspecified order and feeds the slice to
`sort.Sort`; the model sorts the key list directly (the sorting algorithm
is opaque, only the sorted permutation it returns is observable). -/
def Trees (fs : Fs) : List String :=
  List.insertionSort (fun a b => goStrLe a b = true) fs.trees

/-- `Fsys` (source lines 222–230): shallow-copy the handle with the
selected tree replaced; fail unless the name is `"main"` or a known tree. -/
def Fsys (fs : Fs) (name : String) : Res Fs :=
  let nfs : Fs := { fs with fsys := name }
  if name = "main" || fs.trees.contains name then .ok nfs
  else .err ("no fsys '" ++ name ++ "'")

/-! ### Redial and Dial -/

/-- Result of a `Redial`: its returned error, the handle state it leaves
behind, the dial cache afterwards, and whether the newly opened mux was
closed again by `Redial` itself. -/
structure RedialRes where
  err : GoErr
  fs : Fs
  cache : Cache
  newMuxClosed : Bool
deriving Repr, DecidableEq

/-- Environment script for one `Redial`: the outcome of `net.MuxDial`
(an opaque mux identifier on success), the outcome of `auth.AtClient`
(an opaque auth-context identifier on success, or the error text), and the
call script for the embedded `getTrees`. -/
structure RedialEnv where
  mux : Res Nat
  auth : Res Nat
  gt : CallEnv
deriving Repr, DecidableEq

/-- The teardown prologue of `Redial` (source lines 129–137): when the
handle is open, close the old mux, clear the auth context and mark the
handle closed.  (Waiting for the old hangup watcher is concurrency-only.) -/
def teardown (fs : Fs) : Fs :=
  if fs.closed then fs else { fs with ai := none, closed := true }

/-- The tail of `Redial` after the authentication exchange (source lines
151–181): publish mux and auth transiently, run tree discovery, null them
out; on a discovery error close the mux and return it; when the selected
tree is unknown close the mux and fail; otherwise publish mux and auth for
good, clear `closed` and install the handle in the dial cache under its raw
address.  (The spawned hangup watcher is concurrency and is not part of the
state transition.) -/
def afterAuth (gt : CallEnv) (ai : Option Nat) (mux : Nat) (fs : Fs)
    (cache : Cache) : RedialRes :=
  let r := getTrees gt fs.trees
  let fs1 : Fs := { fs with trees := r.2, ai := none, m := none }
  match r.1 with
  | some e => ⟨some e, fs1, cache, true⟩
  | none =>
    if fs1.trees.contains fs1.fsys then
      let fs2 : Fs := { fs1 with ai := ai, m := some mux, closed := false }
      ⟨none, fs2, cacheInsert fs2.raddr fs2 cache, false⟩
    else
      ⟨some ("no fsys '" ++ fs1.fsys ++ "' found in server"), fs1, cache, true⟩

/-- `Redial` (source lines 126–182): tear down any open state, dial a new
mux, run the authentication exchange — an error containing
`"auth disabled"` is only warned about and the dial proceeds with a null
auth context, any other auth error closes the mux and is returned prefixed
by the connection address — then continue with tree discovery and
installation. -/
def Redial (env : RedialEnv) (fs0 : Fs) (cache : Cache) : RedialRes :=
  let fs := teardown fs0
  match env.mux with
  | .err e => ⟨some e, fs, cache, false⟩
  | .ok mux =>
    match env.auth with
    | .ok ai => afterAuth env.gt (some ai) mux fs cache
    | .err e =>
      if strContains e "auth disabled" then afterAuth env.gt none mux fs cache
      else ⟨some (fs.addr ++ ": " ++ e), fs, cache, true⟩

/-- The fresh handle `Dial` constructs on a cache miss (source lines
100–111): connection address and tree from the split raw address, empty
tree set, no mux or auth yet, `closed` set. -/
def dialHandle (addr : String) (tc : Bool) (p : List Char × List Char) : Fs :=
  { addr := ⟨p.1⟩, raddr := addr, tc := tc, ai := none, trees := [],
    fsys := ⟨p.2⟩, m := none, closed := true }

/-- `Dial` (source lines 89–118): canonicalise the address, return the
cached handle on a hit; on a miss build a fresh closed handle from the
split address and run `Redial`, propagating its error (the handle is then
discarded) or returning the installed handle.  The `splitaddr` panic on an
address without `'!'` is modelled as an error outcome. -/
def Dial (env : RedialEnv) (cache : Cache) (addr0 : String) (tc : Bool) :
    Res Fs × Cache :=
  let addr := FillAddr addr0
  match cacheLookup cache addr with
  | some fs => (.ok fs, cache)
  | none =>
    match splitaddrL addr.data with
    | none => (.err "bad address", cache)
    | some p =>
      let fs := dialHandle addr tc p
      let r := Redial env fs cache
      match r.err with
      | some e => (.err e, r.cache)
      | none => (.ok r.fs, r.cache)

/-! ### Helper lemmas -/

theorem splitBang_ne_nil (l : List Char) : splitBang l ≠ [] := by
  cases l with
  | nil => simp [splitBang]
  | cons c rest =>
    rcases h : splitBang rest with _ | ⟨t, ts⟩
    · simp [splitBang, h]
    · simp only [splitBang, h]
      split <;> simp

theorem splitBang_cons (c : Char) (rest : List Char) (t : List Char)
    (ts : List (List Char)) (h : splitBang rest = t :: ts) :
    splitBang (c :: rest) = if c = '!' then [] :: t :: ts else (c :: t) :: ts := by
  simp only [splitBang, h]

theorem joinBang_splitBang (l : List Char) : joinBang (splitBang l) = l := by
  induction l with
  | nil => rfl
  | cons c rest ih =>
    rcases h : splitBang rest with _ | ⟨t, ts⟩
    · exact absurd h (splitBang_ne_nil rest)
    · rw [h] at ih
      rw [splitBang_cons c rest t ts h]
      by_cases hc : c = '!'
      · subst hc
        rw [if_pos rfl]
        show List.nil ++ '!' :: joinBang (t :: ts) = '!' :: rest
        rw [List.nil_append, ih]
      · rw [if_neg hc]
        cases ts with
        | nil =>
          show c :: t = c :: rest
          rw [show joinBang [t] = t from rfl] at ih
          rw [ih]
        | cons t2 ts2 =>
          show (c :: t) ++ '!' :: joinBang (t2 :: ts2) = c :: rest
          rw [List.cons_append]
          exact congrArg (List.cons c) ih

theorem strLeB_trans (a b c : List Char) (hab : strLeB a b = true)
    (hbc : strLeB b c = true) : strLeB a c = true := by
  induction a generalizing b c with
  | nil => rfl
  | cons x xs ih =>
    cases b with
    | nil => simp [strLeB] at hab
    | cons y ys =>
      cases c with
      | nil => simp [strLeB] at hbc
      | cons z zs =>
        simp only [strLeB] at hab hbc ⊢
        by_cases hxy : x.toNat = y.toNat
        · rw [if_pos hxy] at hab
          by_cases hyz : y.toNat = z.toNat
          · rw [if_pos hyz] at hbc
            rw [if_pos (hxy.trans hyz)]
            exact ih ys zs hab hbc
          · rw [if_neg hyz] at hbc
            have hlt : y.toNat < z.toNat := by simpa using hbc
            have hxz : x.toNat < z.toNat := hxy ▸ hlt
            rw [if_neg (Nat.ne_of_lt hxz)]
            simpa using hxz
        · rw [if_neg hxy] at hab
          have hlt : x.toNat < y.toNat := by simpa using hab
          by_cases hyz : y.toNat = z.toNat
          · have hxz : x.toNat < z.toNat := hyz ▸ hlt
            rw [if_neg (Nat.ne_of_lt hxz)]
            simpa using hxz
          · rw [if_neg hyz] at hbc
            have hlt2 : y.toNat < z.toNat := by simpa using hbc
            have hxz : x.toNat < z.toNat := Nat.lt_trans hlt hlt2
            rw [if_neg (Nat.ne_of_lt hxz)]
            simpa using hxz

theorem strLeB_total (a b : List Char) :
    strLeB a b = true ∨ strLeB b a = true := by
  induction a generalizing b with
  | nil => left; rfl
  | cons x xs ih =>
    cases b with
    | nil => right; rfl
    | cons y ys =>
      simp only [strLeB]
      by_cases hxy : x.toNat = y.toNat
      · rw [if_pos hxy, if_pos hxy.symm]
        exact ih ys
      · rcases Nat.lt_or_lt_of_ne hxy with h | h
        · left; rw [if_neg hxy]; simpa using h
        · right; rw [if_neg (Ne.symm hxy)]; simpa using h

theorem contains_mem {l : List String} {s : String} :
    l.contains s = true ↔ s ∈ l := by simp

theorem mem_treeInsert_self (s : String) (l : List String) :
    s ∈ treeInsert s l := by
  unfold treeInsert
  by_cases h : l.contains s = true
  · rw [if_pos h]; exact contains_mem.mp h
  · rw [if_neg h]; simp

theorem mem_treeInsert_iff (a s : String) (l : List String) :
    a ∈ treeInsert s l ↔ a = s ∨ a ∈ l := by
  unfold treeInsert
  by_cases h : l.contains s = true
  · rw [if_pos h]
    constructor
    · intro hm; right; exact hm
    · rintro (rfl | hm)
      · exact contains_mem.mp h
      · exact hm
  · rw [if_neg h]
    simp [or_comm]

theorem joinBang_pair (a b : List Char) : joinBang [a, b] = a ++ '!' :: b := rfl

theorem joinBang_triple (a b c : List Char) :
    joinBang [a, b, c] = a ++ '!' :: (b ++ '!' :: c) := rfl

/-! ### Claims -/

/-- C5: `FillAddr` canonicalises by the count of `!`-separated tokens: one
token `h` yields `tcp!h!zx!main`, two tokens `h!p` yield `tcp!h!p!main`,
three tokens `n!h!p` yield `n!h!p!main`, and four or more tokens leave the
address unchanged. -/
theorem C5_fillAddr_token_cases (addr : String) :
    (∀ h, splitBang addr.data = [h] →
      addr.data = h ∧ FillAddr addr = ⟨"tcp!".data ++ h ++ "!zx!main".data⟩) ∧
    (∀ h p, splitBang addr.data = [h, p] →
      addr.data = h ++ '!' :: p ∧
      FillAddr addr = ⟨"tcp!".data ++ h ++ "!".data ++ p ++ "!main".data⟩) ∧
    (∀ n h p, splitBang addr.data = [n, h, p] →
      addr.data = n ++ '!' :: (h ++ '!' :: p) ∧
      FillAddr addr = ⟨addr.data ++ "!main".data⟩) ∧
    (4 ≤ (splitBang addr.data).length → FillAddr addr = addr) := by
  refine ⟨?_, ?_, ?_, ?_⟩
  · intro h hs
    have hj := joinBang_splitBang addr.data
    rw [hs] at hj
    exact ⟨hj.symm, by simp [FillAddr, hs]⟩
  · intro h p hs
    have hj := joinBang_splitBang addr.data
    rw [hs, joinBang_pair] at hj
    exact ⟨hj.symm, by simp [FillAddr, hs]⟩
  · intro n h p hs
    have hj := joinBang_splitBang addr.data
    rw [hs, joinBang_triple] at hj
    exact ⟨hj.symm, by simp [FillAddr, hs]⟩
  · intro hlen
    rcases hs : splitBang addr.data with _ | ⟨a, _ | ⟨b, _ | ⟨c, _ | ⟨d, l⟩⟩⟩⟩
    · rw [hs] at hlen; simp at hlen
    · rw [hs] at hlen; simp at hlen
    · rw [hs] at hlen; simp at hlen
    · rw [hs] at hlen; simp at hlen
    · simp [FillAddr, hs]

/-- Witness for C5 at the spec's boundary examples. -/
theorem C5_fillAddr_token_cases_wit :
    FillAddr "h!p!e" = "h!p!e!main" ∧ FillAddr "h" = "tcp!h!zx!main" := by
  constructor
  · have h := ((C5_fillAddr_token_cases "h!p!e").2.2.1 "h".data "p".data "e".data
      (by decide)).2
    rw [h]; decide
  · have h := ((C5_fillAddr_token_cases "h").1 "h".data (by decide)).2
    rw [h]; decide

/-- C7: `Fsys(name)` succeeds iff `name` is `"main"` or a member of the
known-trees set, returning a shallow copy of the handle with the selected
tree replaced by `name` and every other field (in particular the mux and
the auth context) unchanged; otherwise it fails with `no fsys '<name>'`. -/
theorem C7_fsys_spec (fs : Fs) (name : String) :
    ((name = "main" ∨ name ∈ fs.trees) →
      Fsys fs name = .ok { fs with fsys := name }) ∧
    (¬(name = "main" ∨ name ∈ fs.trees) →
      Fsys fs name = .err ("no fsys '" ++ name ++ "'")) ∧
    (∀ nfs, Fsys fs name = .ok nfs →
      (name = "main" ∨ name ∈ fs.trees) ∧ nfs.fsys = name ∧ nfs.m = fs.m ∧
        nfs.ai = fs.ai ∧ nfs.trees = fs.trees ∧ nfs.addr = fs.addr ∧
        nfs.raddr = fs.raddr ∧ nfs.tc = fs.tc ∧ nfs.closed = fs.closed) := by
  have hiff : (decide (name = "main") || fs.trees.contains name) = true ↔
      (name = "main" ∨ name ∈ fs.trees) := by simp
  refine ⟨?_, ?_, ?_⟩
  · intro hmem
    simp only [Fsys]
    rw [if_pos (hiff.mpr hmem)]
  · intro hmem
    simp only [Fsys]
    rw [if_neg (fun hb => hmem (hiff.mp hb))]
  · intro nfs hok
    simp only [Fsys] at hok
    by_cases hb : (decide (name = "main") || fs.trees.contains name) = true
    · rw [if_pos hb] at hok
      cases hok
      exact ⟨hiff.mp hb, rfl, rfl, rfl, rfl, rfl, rfl, rfl, rfl⟩
    · rw [if_neg hb] at hok
      cases hok

/-- Witness for C7: rebinding a live two-tree handle to `"work"` succeeds
with the shared state aliased; rebinding to `"nosuch"` fails. -/
theorem C7_fsys_spec_wit :
    Fsys { addr := "tcp!h!zx", raddr := "tcp!h!zx!main", trees := ["main", "work"],
           fsys := "main", m := some 1, ai := some 2, closed := false } "work" =
      .ok { addr := "tcp!h!zx", raddr := "tcp!h!zx!main", trees := ["main", "work"],
            fsys := "work", m := some 1, ai := some 2, closed := false } ∧
    Fsys { addr := "tcp!h!zx", raddr := "tcp!h!zx!main", trees := ["main", "work"],
           fsys := "main", m := some 1, ai := some 2, closed := false } "nosuch" =
      .err "no fsys 'nosuch'" := by
  constructor
  · exact (C7_fsys_spec _ "work").1 (Or.inr (by decide))
  · exact (C7_fsys_spec _ "nosuch").2.1 (by decide)

/-- C10: `Trees()` returns exactly the members of the known-trees set,
sorted ascending lexicographically, with no duplicates (the tree map's key
list is duplicate-free, as Go map keys are). -/
theorem C10_trees_sorted (fs : Fs) (hnd : fs.trees.Nodup) :
    List.Pairwise (fun a b => goStrLe a b = true) (Trees fs) ∧
    (Trees fs).Nodup ∧ ∀ s, s ∈ Trees fs ↔ s ∈ fs.trees := by
  haveI htr : IsTrans String (fun a b => goStrLe a b = true) :=
    ⟨fun a b c hab hbc => strLeB_trans a.data b.data c.data hab hbc⟩
  haveI hto : IsTotal String (fun a b => goStrLe a b = true) :=
    ⟨fun a b => strLeB_total a.data b.data⟩
  have hperm := List.perm_insertionSort (fun a b => goStrLe a b = true) fs.trees
  refine ⟨?_, ?_, ?_⟩
  · exact List.sorted_insertionSort (fun a b => goStrLe a b = true) fs.trees
  · exact hperm.nodup_iff.mpr hnd
  · intro s; exact hperm.mem_iff

/-- Witness for C10 on a concrete two-tree handle. -/
theorem C10_trees_sorted_wit :
    Trees { addr := "", raddr := "", trees := ["work", "main"] } = ["main", "work"] ∧
    (Trees { addr := "", raddr := "", trees := ["work", "main"] }).Nodup := by
  have h := C10_trees_sorted { addr := "", raddr := "", trees := ["work", "main"] }
    (by decide)
  exact ⟨by decide, h.2.1⟩

/-- The tree insertions the `getTrees` loop performs for a run of string
replies. -/
def insertStrs (pre : List String) (trees : List String) : List String :=
  pre.foldl (fun t s => treeInsert s t) trees

theorem gtLoop_strings (pre : List String) (trees : List String) :
    gtLoop (pre.map InMsg.strM) trees = (none, insertStrs pre trees, true) := by
  induction pre generalizing trees with
  | nil => rfl
  | cons s rest ih => simpa [gtLoop, insertStrs] using ih (treeInsert s trees)

theorem gtLoop_bad (pre : List String) (m : InMsg) (rest : List InMsg)
    (trees : List String) (hm : ∀ s, m ≠ .strM s) :
    gtLoop (pre.map InMsg.strM ++ m :: rest) trees =
      (ErrBadMsg, insertStrs pre trees, false) := by
  induction pre generalizing trees with
  | nil =>
    cases m with
    | strM s => exact absurd rfl (hm s)
    | dirM d => rfl
    | bytesM b => rfl
    | otherM => rfl
  | cons s pre2 ih => simpa [gtLoop, insertStrs] using ih (treeInsert s trees)

/-- C6 counterexample: with the outbound send rejected (`cerror(c.Out)` an
i/o error) `getTrees` returns that error before ever reaching the
"unconditional" insertion, leaving the tree set without `"main"` — the
claim that `"main"` is present after every execution, error returns
included, fails on the send-failure path. -/
theorem C6_getTrees_main_cex :
    (getTrees { sendOk := false, outErr := some "i/o error" } []).1 =
      some "i/o error" ∧
    "main" ∉ (getTrees { sendOk := false, outErr := some "i/o error" } []).2 := by
  decide

/-- C6 amended: `getTrees` inserts `"main"` exactly on the executions whose
reply loop drains to completion — the send was accepted and every reply was
a string — including those where the inbound close carries a terminal
error; on a rejected send the tree set is untouched, and on a non-string
reply the function returns `ErrBadMsg` having inserted only the string
replies seen before the bad one, skipping the `"main"` insertion. -/
theorem C6_getTrees_main_amended (env : CallEnv) (trees : List String) :
    (env.sendOk = true → ∀ pre, env.ins = pre.map InMsg.strM →
      getTrees env trees = (env.inErr, treeInsert "main" (insertStrs pre trees)) ∧
      "main" ∈ (getTrees env trees).2) ∧
    (env.sendOk = false → getTrees env trees = (env.outErr, trees)) ∧
    (env.sendOk = true → ∀ pre m rest, env.ins = pre.map InMsg.strM ++ m :: rest →
      (∀ s, m ≠ .strM s) →
      getTrees env trees = (ErrBadMsg, insertStrs pre trees)) := by
  refine ⟨?_, ?_, ?_⟩
  · intro hs pre hins
    have h1 : getTrees env trees =
        (env.inErr, treeInsert "main" (insertStrs pre trees)) := by
      simp [getTrees, hs, hins, gtLoop_strings]
    exact ⟨h1, by rw [h1]; exact mem_treeInsert_self _ _⟩
  · intro hs; simp [getTrees, hs]
  · intro hs pre m rest hins hm
    simp [getTrees, hs, hins, gtLoop_bad pre m rest trees hm]

/-- Witness for the amended C6: one string reply `"work"`, inbound closed
with an error — `"main"` is still inserted and the error returned. -/
theorem C6_getTrees_main_amended_wit :
    getTrees { sendOk := true, ins := [.strM "work"], inErr := some "boom" } [] =
      (some "boom", ["work", "main"]) ∧
    "main" ∈
      (getTrees { sendOk := true, ins := [.strM "work"], inErr := some "boom" } []).2 := by
  have h := (C6_getTrees_main_amended
    { sendOk := true, ins := [.strM "work"], inErr := some "boom" } []).1 rfl
    ["work"] rfl
  exact ⟨h.1.trans (by decide), h.2⟩

theorem teardown_fsys (fs : Fs) : (teardown fs).fsys = fs.fsys := by
  unfold teardown; split <;> rfl

theorem teardown_addr (fs : Fs) : (teardown fs).addr = fs.addr := by
  unfold teardown; split <;> rfl

theorem teardown_raddr (fs : Fs) : (teardown fs).raddr = fs.raddr := by
  unfold teardown; split <;> rfl

theorem teardown_trees (fs : Fs) : (teardown fs).trees = fs.trees := by
  unfold teardown; split <;> rfl

/-- `afterAuth` on a clean tree discovery whose result does not contain the
selected tree: the missing-tree error, an unchanged cache, and the mux
closed. -/
theorem afterAuth_missing (gt : CallEnv) (ai : Option Nat) (mux : Nat) (fs : Fs)
    (cache : Cache) (hgt : (getTrees gt fs.trees).1 = none)
    (hfsys : (getTrees gt fs.trees).2.contains fs.fsys = false) :
    afterAuth gt ai mux fs cache =
      ⟨some ("no fsys '" ++ fs.fsys ++ "' found in server"),
       { fs with trees := (getTrees gt fs.trees).2, ai := none, m := none },
       cache, true⟩ := by
  have hnm : fs.fsys ∉ (getTrees gt fs.trees).2 := fun hm => by
    rw [contains_mem.mpr hm] at hfsys; cases hfsys
  simp [afterAuth, hgt, hnm]

/-- A successful `afterAuth` publishes exactly the auth context it was
given. -/
theorem afterAuth_ai (gt : CallEnv) (ai : Option Nat) (mux : Nat) (fs : Fs)
    (cache : Cache) (h : (afterAuth gt ai mux fs cache).err = none) :
    (afterAuth gt ai mux fs cache).fs.ai = ai := by
  rcases hgt : (getTrees gt fs.trees).1 with _ | e1
  · by_cases hc : fs.fsys ∈ (getTrees gt fs.trees).2
    · simp [afterAuth, hgt, hc]
    · simp [afterAuth, hgt, hc] at h
  · simp [afterAuth, hgt] at h

/-- Cache behaviour of `afterAuth`: on success the rebuilt handle is
inserted under its raw address and marked open; on failure the cache is
untouched. -/
theorem afterAuth_cache (gt : CallEnv) (ai : Option Nat) (mux : Nat) (fs : Fs)
    (cache : Cache) :
    ((afterAuth gt ai mux fs cache).err = none →
      (afterAuth gt ai mux fs cache).fs.raddr = fs.raddr ∧
      (afterAuth gt ai mux fs cache).fs.closed = false ∧
      (afterAuth gt ai mux fs cache).cache =
        cacheInsert fs.raddr (afterAuth gt ai mux fs cache).fs cache) ∧
    (∀ e, (afterAuth gt ai mux fs cache).err = some e →
      (afterAuth gt ai mux fs cache).cache = cache) := by
  rcases hgt : (getTrees gt fs.trees).1 with _ | e1
  · by_cases hc : fs.fsys ∈ (getTrees gt fs.trees).2
    · simp [afterAuth, hgt, hc]
    · simp [afterAuth, hgt, hc]
  · simp [afterAuth, hgt]

/-- C3: when tree discovery succeeds but the selected tree is not among the
discovered known trees, `Redial` fails with `no fsys '<name>' found in
server`, closes the new mux, and leaves the dial cache unchanged (the
handle is not installed). -/
theorem C3_redial_missing_tree (env : RedialEnv) (fs : Fs) (cache : Cache)
    (mux : Nat) (hm : env.mux = .ok mux)
    (hauth : (∃ ai, env.auth = .ok ai) ∨
      (∃ e, env.auth = .err e ∧ strContains e "auth disabled" = true))
    (hgt : (getTrees env.gt fs.trees).1 = none)
    (hfsys : (getTrees env.gt fs.trees).2.contains fs.fsys = false) :
    (Redial env fs cache).err =
      some ("no fsys '" ++ fs.fsys ++ "' found in server") ∧
    (Redial env fs cache).cache = cache ∧
    (Redial env fs cache).newMuxClosed = true := by
  have hgt2 : (getTrees env.gt (teardown fs).trees).1 = none := by
    rw [teardown_trees]; exact hgt
  have hfsys2 :
      (getTrees env.gt (teardown fs).trees).2.contains (teardown fs).fsys = false := by
    rw [teardown_trees, teardown_fsys]; exact hfsys
  obtain ⟨a, hra⟩ :
      ∃ a, Redial env fs cache = afterAuth env.gt a mux (teardown fs) cache := by
    rcases hauth with ⟨ai, ha⟩ | ⟨e, ha, hd⟩
    · exact ⟨some ai, by simp [Redial, hm, ha]⟩
    · exact ⟨none, by simp [Redial, hm, ha, hd]⟩
  rw [hra, afterAuth_missing env.gt a mux (teardown fs) cache hgt2 hfsys2]
  refine ⟨?_, rfl, rfl⟩
  rw [teardown_fsys]

/-- Witness for C3: dialing tree `nosuch` of a server that serves only
`main` fails with the named error and does not touch the cache. -/
theorem C3_redial_missing_tree_wit :
    (Redial { mux := .ok 7, auth := .ok 3, gt := { sendOk := true } }
      { addr := "tcp!h!zx", raddr := "tcp!h!zx!nosuch", fsys := "nosuch" } []).err =
      some "no fsys 'nosuch' found in server" ∧
    (Redial { mux := .ok 7, auth := .ok 3, gt := { sendOk := true } }
      { addr := "tcp!h!zx", raddr := "tcp!h!zx!nosuch", fsys := "nosuch" } []).cache =
      [] ∧
    (Redial { mux := .ok 7, auth := .ok 3, gt := { sendOk := true } }
      { addr := "tcp!h!zx", raddr := "tcp!h!zx!nosuch", fsys := "nosuch" }
      []).newMuxClosed = true := by
  have h := C3_redial_missing_tree
    { mux := .ok 7, auth := .ok 3, gt := { sendOk := true } }
    { addr := "tcp!h!zx", raddr := "tcp!h!zx!nosuch", fsys := "nosuch" } [] 7 rfl
    (Or.inl ⟨3, rfl⟩) (by decide) (by decide)
  exact ⟨h.1.trans (by decide), h.2.1, h.2.2⟩

/-- C2: an authentication failure whose text contains `"auth disabled"` is
only warned about — the dial proceeds exactly as it would with a null auth
context and, if it then succeeds, the handle's auth context is null; any
other authentication failure closes the new mux, leaves the cache
unchanged, and returns an error prefixed by the connection address. -/
theorem C2_redial_auth (env : RedialEnv) (fs : Fs) (cache : Cache)
    (mux : Nat) (e : String) (hm : env.mux = .ok mux) (ha : env.auth = .err e) :
    (strContains e "auth disabled" = true →
      Redial env fs cache = afterAuth env.gt none mux (teardown fs) cache ∧
      ((Redial env fs cache).err = none → (Redial env fs cache).fs.ai = none)) ∧
    (strContains e "auth disabled" = false →
      Redial env fs cache =
        ⟨some (fs.addr ++ ": " ++ e), teardown fs, cache, true⟩) := by
  constructor
  · intro hd
    have hra : Redial env fs cache = afterAuth env.gt none mux (teardown fs) cache := by
      simp [Redial, hm, ha, hd]
    refine ⟨hra, ?_⟩
    rw [hra]
    exact afterAuth_ai env.gt none mux (teardown fs) cache
  · intro hd
    have : Redial env fs cache =
        ⟨some ((teardown fs).addr ++ ": " ++ e), teardown fs, cache, true⟩ := by
      simp [Redial, hm, ha, hd]
    rwa [teardown_addr] at this

/-- Witness for C2: an `"auth disabled"` failure dials through with a null
auth context; a `"boom"` failure returns the address-prefixed error with
the cache untouched and the mux closed. -/
theorem C2_redial_auth_wit :
    (Redial { mux := .ok 1, auth := .err "x: auth disabled", gt := { sendOk := true } }
        { addr := "tcp!h!zx", raddr := "tcp!h!zx!main", fsys := "main" } []).err =
      none ∧
    (Redial { mux := .ok 1, auth := .err "x: auth disabled", gt := { sendOk := true } }
        { addr := "tcp!h!zx", raddr := "tcp!h!zx!main", fsys := "main" } []).fs.ai =
      none ∧
    Redial { mux := .ok 1, auth := .err "boom", gt := { sendOk := true } }
        { addr := "tcp!h!zx", raddr := "tcp!h!zx!main", fsys := "main" } [] =
      ⟨some "tcp!h!zx: boom",
       teardown { addr := "tcp!h!zx", raddr := "tcp!h!zx!main", fsys := "main" },
       [], true⟩ := by
  have h1 := (C2_redial_auth
    { mux := .ok 1, auth := .err "x: auth disabled", gt := { sendOk := true } }
    { addr := "tcp!h!zx", raddr := "tcp!h!zx!main", fsys := "main" } [] 1
    "x: auth disabled" rfl rfl).1 (by decide)
  have h2 := (C2_redial_auth
    { mux := .ok 1, auth := .err "boom", gt := { sendOk := true } }
    { addr := "tcp!h!zx", raddr := "tcp!h!zx!main", fsys := "main" } [] 1
    "boom" rfl rfl).2 (by decide)
  exact ⟨by decide, h1.2 (by decide), h2.trans (by decide)⟩

/-- Cache behaviour of `Redial`: on success the handle (whose raw address
is preserved) is installed under its raw address; on failure the cache is
returned untouched. -/
theorem redial_cache (env : RedialEnv) (fs : Fs) (cache : Cache) :
    ((Redial env fs cache).err = none →
      (Redial env fs cache).fs.raddr = fs.raddr ∧
      (Redial env fs cache).cache =
        cacheInsert fs.raddr (Redial env fs cache).fs cache) ∧
    (∀ e, (Redial env fs cache).err = some e →
      (Redial env fs cache).cache = cache) := by
  rcases hm : env.mux with mux | me
  · have key : ∀ a, Redial env fs cache = afterAuth env.gt a mux (teardown fs) cache →
        ((Redial env fs cache).err = none →
          (Redial env fs cache).fs.raddr = fs.raddr ∧
          (Redial env fs cache).cache =
            cacheInsert fs.raddr (Redial env fs cache).fs cache) ∧
        (∀ e, (Redial env fs cache).err = some e →
          (Redial env fs cache).cache = cache) := by
      intro a hra
      have hc := afterAuth_cache env.gt a mux (teardown fs) cache
      rw [teardown_raddr] at hc
      rw [hra]
      exact ⟨fun h => ⟨(hc.1 h).1, (hc.1 h).2.2⟩, hc.2⟩
    rcases ha : env.auth with ai | e2
    · exact key (some ai) (by simp [Redial, hm, ha])
    · by_cases hd : strContains e2 "auth disabled" = true
      · exact key none (by simp [Redial, hm, ha, hd])
      · have hra : Redial env fs cache =
            ⟨some ((teardown fs).addr ++ ": " ++ e2), teardown fs, cache, true⟩ := by
          simp [Redial, hm, ha, hd]
        rw [hra]
        exact ⟨(fun h => nomatch h), fun e _ => rfl⟩
  · have hra : Redial env fs cache = ⟨some me, teardown fs, cache, false⟩ := by
      simp [Redial, hm]
    rw [hra]
    exact ⟨(fun h => nomatch h), fun e _ => rfl⟩

/-- C4: `Dial` canonicalises the address and returns the cached handle on a
hit without touching the cache; on a miss it constructs a fresh handle with
`closed=true` and runs `Redial` — if that fails the error is returned and
the cache is unchanged (the new handle is not installed), and if it
succeeds the rebuilt handle is returned and installed in the cache under
its raw tree-inclusive address. -/
theorem C4_dial_cache (env : RedialEnv) (cache : Cache) (addr0 : String)
    (tc : Bool) :
    (∀ fs, cacheLookup cache (FillAddr addr0) = some fs →
      Dial env cache addr0 tc = (.ok fs, cache)) ∧
    (cacheLookup cache (FillAddr addr0) = none →
      ∀ p, splitaddrL (FillAddr addr0).data = some p →
      (dialHandle (FillAddr addr0) tc p).closed = true ∧
      (dialHandle (FillAddr addr0) tc p).raddr = FillAddr addr0 ∧
      (∀ e, (Redial env (dialHandle (FillAddr addr0) tc p) cache).err = some e →
        Dial env cache addr0 tc = (.err e, cache)) ∧
      ((Redial env (dialHandle (FillAddr addr0) tc p) cache).err = none →
        Dial env cache addr0 tc =
          (.ok (Redial env (dialHandle (FillAddr addr0) tc p) cache).fs,
           cacheInsert (FillAddr addr0)
             (Redial env (dialHandle (FillAddr addr0) tc p) cache).fs cache) ∧
        (Redial env (dialHandle (FillAddr addr0) tc p) cache).fs.raddr =
          FillAddr addr0)) := by
  constructor
  · intro fs h
    simp [Dial, h]
  · intro h p hsp
    refine ⟨rfl, rfl, ?_, ?_⟩
    · intro e he
      have hc := (redial_cache env (dialHandle (FillAddr addr0) tc p) cache).2 e he
      simp [Dial, h, hsp, he, hc]
    · intro he
      have hc := (redial_cache env (dialHandle (FillAddr addr0) tc p) cache).1 he
      constructor
      · simp only [Dial, h, hsp]
        rw [he]
        simp only []
        rw [hc.2]
        rfl
      · exact hc.1

/-- Witness for C4: `Dial("h")` against a server serving only `main`, with
an empty cache, succeeds and installs the rebuilt open handle under
`tcp!h!zx!main`. -/
theorem C4_dial_cache_wit :
    Dial { mux := .ok 1, auth := .ok 2, gt := { sendOk := true } } [] "h" false =
      (.ok { addr := "tcp!h!zx", raddr := "tcp!h!zx!main", tc := false,
             ai := some 2, trees := ["main"], fsys := "main", m := some 1,
             closed := false },
       [("tcp!h!zx!main",
         { addr := "tcp!h!zx", raddr := "tcp!h!zx!main", tc := false,
           ai := some 2, trees := ["main"], fsys := "main", m := some 1,
           closed := false })]) := by
  have h := ((C4_dial_cache { mux := .ok 1, auth := .ok 2, gt := { sendOk := true } }
      [] "h" false).2 (by decide) ("tcp!h!zx".data, "main".data) (by decide)).2.2.2
    (by decide)
  exact h.1.trans (by decide)

/-! ### Envelope close discipline -/

/-- The close reasons the result channel may carry: the inbound terminal
error as observed at close time (`none` when the inbound half had not yet
closed), or the locally synthesised `ErrBadMsg`. -/
def closeReasonOk (inErr e : GoErr) : Prop := e = ErrBadMsg ∨ e = inErr ∨ e = none

theorem recv1_snd_some (ins : List InMsg) (inErr : GoErr) (e : String)
    (h : (recv1 ins inErr).2 = some e) : inErr = some e := by
  cases ins with
  | nil => exact h
  | cons v rest =>
    simp only [recv1] at h
    split at h
    · exact h
    · exact absurd h (by simp)

/-- C9: for the error-only envelope (`errcall`, shared by Remove,
RemoveAll, Move and Link), whenever the request send is accepted and the
reply is the protocol's empty error-only reply (no payload messages before
the inbound close) and the caller has not closed the result channel, the
result channel delivers exactly one value — the inbound terminal error,
nil on success — and is then closed with that same error. -/
theorem C9_errcall_delivery (env : CallEnv) (hs : env.sendOk = true)
    (hins : env.ins = []) (hacc : 1 ≤ env.rcAcc) :
    rcErrVals (errcallT env) = [env.inErr] ∧
    rcCloses (errcallT env) = [env.inErr] ∧
    errcallT env = [Ev.closeOut none, Ev.closeIn env.inErr,
      Ev.rcErrV env.inErr, Ev.closeRc env.inErr] := by
  simp [errcallT, hs, hins, recv1, hacc, rcErrVals, rcCloses]

/-- Witness for C9: Remove accepted, server closes with an error — the one
delivered value and the close reason are that error. -/
theorem C9_errcall_delivery_wit :
    rcErrVals (errcallT { sendOk := true, inErr := some "file not found", rcAcc := 1 }) =
      [some "file not found"] ∧
    rcCloses (errcallT { sendOk := true, inErr := some "file not found", rcAcc := 1 }) =
      [some "file not found"] := by
  have h := C9_errcall_delivery
    { sendOk := true, inErr := some "file not found", rcAcc := 1 } rfl rfl (by decide)
  exact ⟨h.1, h.2.1⟩

theorem dircall_closes (env : CallEnv) (hs : env.sendOk = true) :
    ∃ e, rcCloses (dircallT env) = [e] ∧ closeReasonOk env.inErr e := by
  rcases hm : recv1 env.ins env.inErr with ⟨mo, er⟩
  cases er with
  | none =>
    rcases mo with _ | im
    · exact ⟨ErrBadMsg, by simp [dircallT, hs, hm, rcCloses], Or.inl rfl⟩
    · cases im with
      | dirM d =>
        refine ⟨none, ?_, Or.inr (Or.inr rfl)⟩
        by_cases hrc : 1 ≤ env.rcAcc <;> simp [dircallT, hs, hm, rcCloses, hrc]
      | strM s => exact ⟨ErrBadMsg, by simp [dircallT, hs, hm, rcCloses], Or.inl rfl⟩
      | bytesM b => exact ⟨ErrBadMsg, by simp [dircallT, hs, hm, rcCloses], Or.inl rfl⟩
      | otherM => exact ⟨ErrBadMsg, by simp [dircallT, hs, hm, rcCloses], Or.inl rfl⟩
  | some e1 =>
    have hie : env.inErr = some e1 := recv1_snd_some env.ins env.inErr e1 (by rw [hm])
    rcases mo with _ | im
    · exact ⟨some e1, by simp [dircallT, hs, hm, rcCloses], Or.inr (Or.inl hie.symm)⟩
    · cases im <;>
        exact ⟨some e1, by simp [dircallT, hs, hm, rcCloses], Or.inr (Or.inl hie.symm)⟩

theorem errcall_closes (env : CallEnv) (hs : env.sendOk = true) :
    ∃ e, rcCloses (errcallT env) = [e] ∧ closeReasonOk env.inErr e := by
  rcases he : (recv1 env.ins env.inErr).2 with _ | e1
  · refine ⟨none, ?_, Or.inr (Or.inr rfl)⟩
    by_cases hrc : 1 ≤ env.rcAcc <;> simp [errcallT, hs, he, rcCloses, hrc]
  · have hie : env.inErr = some e1 := recv1_snd_some _ _ _ he
    refine ⟨some e1, ?_, Or.inr (Or.inl hie.symm)⟩
    by_cases hrc : 1 ≤ env.rcAcc <;> simp [errcallT, hs, he, rcCloses, hrc]

theorem getLoop_closes (inErr rcErr : GoErr) (ins : List InMsg) (acc : Nat)
    (hacc : ins.length ≤ acc) :
    ∃ e, (rcCloses (getLoop inErr rcErr ins acc) = [e] ∨
          rcCloses (getLoop inErr rcErr ins acc) = [e, e]) ∧
      closeReasonOk inErr e := by
  induction ins generalizing acc with
  | nil => exact ⟨inErr, Or.inl (by simp [getLoop, rcCloses]), Or.inr (Or.inl rfl)⟩
  | cons m rest ih =>
    have hacc2 : rest.length + 1 ≤ acc := by simpa using hacc
    have h1 : 1 ≤ acc := by omega
    cases m with
    | bytesM b =>
      obtain ⟨e, hcl, hok⟩ := ih (acc - 1) (by omega)
      refine ⟨e, ?_, hok⟩
      simpa [getLoop, h1, rcCloses] using hcl
    | dirM d => exact ⟨ErrBadMsg, Or.inr (by simp [getLoop, rcCloses]), Or.inl rfl⟩
    | strM s => exact ⟨ErrBadMsg, Or.inr (by simp [getLoop, rcCloses]), Or.inl rfl⟩
    | otherM => exact ⟨ErrBadMsg, Or.inr (by simp [getLoop, rcCloses]), Or.inl rfl⟩

theorem findLoop_closes (inErr rcErr : GoErr) (ins : List InMsg) (acc : Nat)
    (hacc : ins.length ≤ acc) :
    ∃ e, (rcCloses (findLoop inErr rcErr ins acc) = [e] ∨
          rcCloses (findLoop inErr rcErr ins acc) = [e, e]) ∧
      closeReasonOk inErr e := by
  induction ins generalizing acc with
  | nil => exact ⟨inErr, Or.inl (by simp [findLoop, rcCloses]), Or.inr (Or.inl rfl)⟩
  | cons m rest ih =>
    have hacc2 : rest.length + 1 ≤ acc := by simpa using hacc
    have h1 : 1 ≤ acc := by omega
    cases m with
    | dirM d =>
      obtain ⟨e, hcl, hok⟩ := ih (acc - 1) (by omega)
      refine ⟨e, ?_, hok⟩
      simpa [findLoop, h1, rcCloses] using hcl
    | bytesM b => exact ⟨ErrBadMsg, Or.inr (by simp [findLoop, rcCloses]), Or.inl rfl⟩
    | strM s => exact ⟨ErrBadMsg, Or.inr (by simp [findLoop, rcCloses]), Or.inl rfl⟩
    | otherM => exact ⟨ErrBadMsg, Or.inr (by simp [findLoop, rcCloses]), Or.inl rfl⟩

theorem findgetLoop_closes (inErr rcErr : GoErr) (ins : List InMsg) (acc : Nat)
    (hacc : ins.length ≤ acc) :
    ∃ e, rcCloses (findgetLoop inErr rcErr ins acc) = [e] ∧ closeReasonOk inErr e := by
  induction ins generalizing acc with
  | nil => exact ⟨inErr, by simp [findgetLoop, rcCloses], Or.inr (Or.inl rfl)⟩
  | cons m rest ih =>
    have hacc2 : rest.length + 1 ≤ acc := by simpa using hacc
    have h1 : 1 ≤ acc := by omega
    obtain ⟨e, hcl, hok⟩ := ih (acc - 1) (by omega)
    refine ⟨e, ?_, hok⟩
    simpa [findgetLoop, h1, rcCloses] using hcl

theorem putReply_closes (penv : PutEnv) :
    ∃ e, rcCloses (putReply penv) = [e] ∧ closeReasonOk penv.inErr e := by
  rcases hm : recv1 penv.ins penv.inErr with ⟨mo, er⟩
  cases er with
  | none =>
    rcases mo with _ | im
    · exact ⟨ErrBadMsg, by simp [putReply, hm, rcCloses], Or.inl rfl⟩
    · cases im with
      | dirM d =>
        refine ⟨none, ?_, Or.inr (Or.inr rfl)⟩
        by_cases hrc : 1 ≤ penv.rcAcc <;> simp [putReply, hm, rcCloses, hrc]
      | strM s => exact ⟨ErrBadMsg, by simp [putReply, hm, rcCloses], Or.inl rfl⟩
      | bytesM b => exact ⟨ErrBadMsg, by simp [putReply, hm, rcCloses], Or.inl rfl⟩
      | otherM => exact ⟨ErrBadMsg, by simp [putReply, hm, rcCloses], Or.inl rfl⟩
  | some e1 =>
    have hie : penv.inErr = some e1 := recv1_snd_some _ _ _ (by rw [hm])
    rcases mo with _ | im
    · exact ⟨some e1, by simp [putReply, hm, rcCloses], Or.inr (Or.inl hie.symm)⟩
    · cases im <;>
        exact ⟨some e1, by simp [putReply, hm, rcCloses], Or.inr (Or.inl hie.symm)⟩

theorem putForward_clean (outErr : GoErr) (replaced : Bool)
    (msgs : List (List Nat)) (acc : Nat) (hacc : msgs.length ≤ acc) :
    putForward outErr none replaced msgs acc =
      (msgs.map Ev.outData ++ [Ev.closeOut none], true) := by
  induction msgs generalizing acc with
  | nil => rfl
  | cons b rest ih =>
    have hacc2 : rest.length + 1 ≤ acc := by simpa using hacc
    have h1 : 1 ≤ acc := by omega
    simp [putForward, h1, ih (acc - 1) (by omega)]

theorem putForward_reject (outErr dcErr : GoErr) (replaced : Bool)
    (msgs : List (List Nat)) (acc : Nat) (hacc : acc < msgs.length) :
    putForward outErr dcErr replaced msgs acc =
      ((msgs.take acc).map Ev.outData ++
        ((if replaced then [] else [Ev.closeDc outErr]) ++
          [Ev.closeIn outErr, Ev.closeRc outErr]), false) := by
  induction msgs generalizing acc with
  | nil => simp at hacc
  | cons b rest ih =>
    rcases acc with _ | a2
    · simp [putForward]
    · have h2 : a2 < rest.length := by simpa using hacc
      simp [putForward, show 1 ≤ a2 + 1 from by omega, ih a2 h2]

theorem putForward_dcErr (outErr : GoErr) (e : String) (replaced : Bool)
    (msgs : List (List Nat)) (acc : Nat) (hacc : msgs.length ≤ acc) :
    putForward outErr (some e) replaced msgs acc =
      (msgs.map Ev.outData ++
        [Ev.closeOut (some e), Ev.closeIn (some e), Ev.closeRc (some e)], false) := by
  induction msgs generalizing acc with
  | nil => rfl
  | cons b rest ih =>
    have hacc2 : rest.length + 1 ≤ acc := by simpa using hacc
    have h1 : 1 ≤ acc := by omega
    simp [putForward, h1, ih (acc - 1) (by omega)]

theorem rcCloses_outData (msgs : List (List Nat)) (t : List Ev) :
    rcCloses (msgs.map Ev.outData ++ t) = rcCloses t := by
  induction msgs with
  | nil => rfl
  | cons b rest ih => simp [rcCloses, ih]

/-- C1 counterexample: on an outbound send failure `dircall` (the Stat and
Wstat envelope) closes only the inbound half of the call and performs no
close at all on the caller's result channel — zero closes, not exactly one,
so a caller reading the result channel would block forever. -/
theorem C1_envelope_close_cex :
    rcCloses (dircallT { sendOk := false, outErr := some "i/o error" }) = [] ∧
    dircallT { sendOk := false, outErr := some "i/o error" } =
      [Ev.closeIn (some "i/o error")] := by
  decide

/-- Put with the header accepted, a real data stream, and the mux
rejecting one of the data-chunk sends: the caller's channel, the inbound
half and the result channel are all closed once with the outbound error
(source lines 374-384). -/
theorem put_data_reject_closes (penv : PutEnv) (ho : 1 ≤ penv.outAcc)
    (hd : penv.dtype ≠ "d") (hsup : penv.dcSupplied = true)
    (hlen : penv.outAcc ≤ penv.dcMsgs.length) :
    rcCloses (putT penv) = [penv.outErr] := by
  have hrej := putForward_reject penv.outErr penv.dcErr false penv.dcMsgs
    (penv.outAcc - 1) (by omega)
  have hput : putT penv =
      (penv.dcMsgs.take (penv.outAcc - 1)).map Ev.outData ++
        [Ev.closeDc penv.outErr, Ev.closeIn penv.outErr, Ev.closeRc penv.outErr] := by
    simp [putT, ho, hd, hsup, hrej]
  rw [hput, rcCloses_outData]
  simp [rcCloses]

/-- Put with the header accepted, all data chunks forwarded, and the caller
closing its data channel with an error: the inbound half and the result
channel are closed once with that error (source lines 386-395). -/
theorem put_dc_error_closes (penv : PutEnv) (ho : 1 ≤ penv.outAcc)
    (hd : penv.dtype ≠ "d") (hsup : penv.dcSupplied = true)
    (hlen : penv.dcMsgs.length + 1 ≤ penv.outAcc) (s : String)
    (hdc : penv.dcErr = some s) :
    rcCloses (putT penv) = [some s] := by
  have hfw := putForward_dcErr penv.outErr s false penv.dcMsgs
    (penv.outAcc - 1) (by omega)
  have hput : putT penv = penv.dcMsgs.map Ev.outData ++
      [Ev.closeOut (some s), Ev.closeIn (some s), Ev.closeRc (some s)] := by
    simp [putT, ho, hd, hsup, hdc, hfw]
  rw [hput, rcCloses_outData]
  simp [rcCloses]

/-- Put with the header accepted on the paths that reach the reply phase —
a directory entry, no caller data channel, or a fully forwarded stream
closed cleanly: the result channel is closed once with an inbound-side
reason. -/
theorem put_clean_closes (penv : PutEnv) (ho : 1 ≤ penv.outAcc)
    (hcase : penv.dtype = "d" ∨ penv.dcSupplied = false ∨
      (penv.dcMsgs.length + 1 ≤ penv.outAcc ∧ penv.dcErr = none)) :
    ∃ e, rcCloses (putT penv) = [e] ∧ closeReasonOk penv.inErr e := by
  obtain ⟨e, hcl, hok⟩ := putReply_closes penv
  refine ⟨e, ?_, hok⟩
  rcases hcase with hd | hsup2 | ⟨hlen, hdc⟩
  · simpa [putT, ho, hd, rcCloses] using hcl
  · by_cases hd : penv.dtype = "d"
    · simpa [putT, ho, hd, rcCloses] using hcl
    · have hput : putT penv = Ev.closeOut none :: putReply penv := by
        simp [putT, ho, hd, hsup2, putForward]
      rw [hput]
      simpa [rcCloses] using hcl
  · by_cases hd : penv.dtype = "d"
    · simpa [putT, ho, hd, rcCloses] using hcl
    · by_cases hsup : penv.dcSupplied = true
      · have hfw := putForward_clean penv.outErr false penv.dcMsgs
          (penv.outAcc - 1) (by omega)
        have hput : putT penv =
            penv.dcMsgs.map Ev.outData ++ (Ev.closeOut none :: putReply penv) := by
          simp [putT, ho, hd, hsup, hdc, hfw]
        rw [hput, rcCloses_outData]
        simpa [rcCloses] using hcl
      · have hsup2 : penv.dcSupplied = false := by
          cases h : penv.dcSupplied
          · rfl
          · exact absurd h hsup
        have hput : putT penv = Ev.closeOut none :: putReply penv := by
          simp [putT, ho, hd, hsup2, putForward]
        rw [hput]
        simpa [rcCloses] using hcl

/-- C1 amended: on rejection of the request (header) message every envelope
closes only the inbound half with the outbound error and never closes the
result channel.  In every outcome where the request is accepted — and, for
the stream-forwarding envelopes, the caller does not cancel — the result
channel is closed effectively once: at most two close operations, always
with the same reason (the second, in the Get and Find bad-message paths, is
a no-op under first-close-wins).  The reason is the inbound terminal error
as observed at close time (`none` when the inbound half had not yet closed)
or the locally synthesised `ErrBadMsg`; in Put's streaming phase two
further reasons occur: a rejected data-chunk send closes the result channel
with the outbound error, and a caller data channel closed with an error
closes it with that error. -/
theorem C1_envelope_close_amended (env : CallEnv) (penv : PutEnv) :
    (env.sendOk = false →
      rcCloses (dircallT env) = [] ∧ rcCloses (errcallT env) = [] ∧
      rcCloses (getT env) = [] ∧ rcCloses (findT env) = [] ∧
      rcCloses (findgetT env) = [] ∧
      dircallT env = [Ev.closeIn env.outErr] ∧
      errcallT env = [Ev.closeIn env.outErr] ∧
      getT env = [Ev.closeIn env.outErr] ∧
      findT env = [Ev.closeIn env.outErr] ∧
      findgetT env = [Ev.closeIn env.outErr]) ∧
    (penv.outAcc = 0 →
      rcCloses (putT penv) = [] ∧ putT penv = [Ev.closeIn penv.outErr]) ∧
    (env.sendOk = true →
      (∃ e, rcCloses (dircallT env) = [e] ∧ closeReasonOk env.inErr e) ∧
      (∃ e, rcCloses (errcallT env) = [e] ∧ closeReasonOk env.inErr e)) ∧
    (env.sendOk = true → env.ins.length ≤ env.rcAcc →
      (∃ e, (rcCloses (getT env) = [e] ∨ rcCloses (getT env) = [e, e]) ∧
        closeReasonOk env.inErr e) ∧
      (∃ e, (rcCloses (findT env) = [e] ∨ rcCloses (findT env) = [e, e]) ∧
        closeReasonOk env.inErr e) ∧
      (∃ e, rcCloses (findgetT env) = [e] ∧ closeReasonOk env.inErr e)) ∧
    (1 ≤ penv.outAcc → penv.dtype ≠ "d" → penv.dcSupplied = true →
      penv.outAcc ≤ penv.dcMsgs.length →
      rcCloses (putT penv) = [penv.outErr]) ∧
    (1 ≤ penv.outAcc → penv.dtype ≠ "d" → penv.dcSupplied = true →
      penv.dcMsgs.length + 1 ≤ penv.outAcc → ∀ s, penv.dcErr = some s →
      rcCloses (putT penv) = [some s]) ∧
    (1 ≤ penv.outAcc →
      (penv.dtype = "d" ∨ penv.dcSupplied = false ∨
        (penv.dcMsgs.length + 1 ≤ penv.outAcc ∧ penv.dcErr = none)) →
      ∃ e, rcCloses (putT penv) = [e] ∧ closeReasonOk penv.inErr e) ∧
    (1 ≤ penv.outAcc →
      ∃ e, rcCloses (putT penv) = [e] ∧
        (closeReasonOk penv.inErr e ∨ e = penv.outErr ∨ e = penv.dcErr)) := by
  refine ⟨?_, ?_, ?_, ?_, ?_, ?_, ?_, ?_⟩
  · intro hs
    refine ⟨?_, ?_, ?_, ?_, ?_, ?_, ?_, ?_, ?_, ?_⟩ <;>
      simp [dircallT, errcallT, getT, findT, findgetT, hs, rcCloses]
  · intro ho
    have h0 : ¬ 1 ≤ penv.outAcc := by omega
    exact ⟨by simp [putT, h0, rcCloses], by simp [putT, h0]⟩
  · intro hs
    exact ⟨dircall_closes env hs, errcall_closes env hs⟩
  · intro hs hlen
    refine ⟨?_, ?_, ?_⟩
    · obtain ⟨e, hcl, hok⟩ := getLoop_closes env.inErr env.rcErr env.ins env.rcAcc hlen
      refine ⟨e, ?_, hok⟩
      simpa [getT, hs, rcCloses] using hcl
    · obtain ⟨e, hcl, hok⟩ := findLoop_closes env.inErr env.rcErr env.ins env.rcAcc hlen
      refine ⟨e, ?_, hok⟩
      simpa [findT, hs, rcCloses] using hcl
    · obtain ⟨e, hcl, hok⟩ :=
        findgetLoop_closes env.inErr env.rcErr env.ins env.rcAcc hlen
      refine ⟨e, ?_, hok⟩
      simpa [findgetT, hs, rcCloses] using hcl
  · exact fun ho hd hsup hlen => put_data_reject_closes penv ho hd hsup hlen
  · exact fun ho hd hsup hlen s hdc => put_dc_error_closes penv ho hd hsup hlen s hdc
  · exact fun ho hcase => put_clean_closes penv ho hcase
  · intro ho
    by_cases hd : penv.dtype = "d"
    · obtain ⟨e, hcl, hok⟩ := put_clean_closes penv ho (Or.inl hd)
      exact ⟨e, hcl, Or.inl hok⟩
    · by_cases hsup : penv.dcSupplied = true
      · by_cases hlen : penv.dcMsgs.length + 1 ≤ penv.outAcc
        · rcases hdc : penv.dcErr with _ | s
          · obtain ⟨e, hcl, hok⟩ :=
              put_clean_closes penv ho (Or.inr (Or.inr ⟨hlen, hdc⟩))
            exact ⟨e, hcl, Or.inl hok⟩
          · exact ⟨some s, put_dc_error_closes penv ho hd hsup hlen s hdc,
              Or.inr (Or.inr rfl)⟩
        · exact ⟨penv.outErr, put_data_reject_closes penv ho hd hsup (by omega),
            Or.inr (Or.inl rfl)⟩
      · have hsup2 : penv.dcSupplied = false := by
          cases h : penv.dcSupplied
          · rfl
          · exact absurd h hsup
        obtain ⟨e, hcl, hok⟩ := put_clean_closes penv ho (Or.inr (Or.inl hsup2))
        exact ⟨e, hcl, Or.inl hok⟩

/-- Witness for the amended C1: a rejected Get send leaves the result
channel unclosed; an accepted Stat reply closes it once with nil; an
accepted directory Put closes it once with nil; a Put whose single data
chunk is rejected mid-stream closes it once with the outbound error. -/
theorem C1_envelope_close_amended_wit :
    rcCloses (getT { sendOk := false, outErr := some "i/o error" }) = [] ∧
    (∃ e, rcCloses (dircallT { sendOk := true, ins := [.dirM []], rcAcc := 1 }) =
      [e] ∧ closeReasonOk none e) ∧
    (∃ e,
      rcCloses (putT { dtype := "d", outAcc := 1, ins := [.dirM []], rcAcc := 1 }) =
        [e] ∧
      closeReasonOk none e) ∧
    rcCloses (putT { dtype := "", dcSupplied := true, dcMsgs := [[7]],
                     outAcc := 1, outErr := some "i/o error" }) =
      [some "i/o error"] := by
  refine ⟨?_, ?_, ?_, ?_⟩
  · exact ((C1_envelope_close_amended
      { sendOk := false, outErr := some "i/o error" } {}).1 rfl).2.2.1
  · exact ((C1_envelope_close_amended
      { sendOk := true, ins := [.dirM []], rcAcc := 1 } {}).2.2.1 rfl).1
  · exact (C1_envelope_close_amended { sendOk := true }
      { dtype := "d", outAcc := 1, ins := [.dirM []], rcAcc := 1 }).2.2.2.2.2.2.1
      (by decide) (Or.inl rfl)
  · exact (C1_envelope_close_amended { sendOk := true }
      { dtype := "", dcSupplied := true, dcMsgs := [[7]],
        outAcc := 1, outErr := some "i/o error" }).2.2.2.2.1
      (by decide) (by decide) rfl (by decide)

/-- The reply phase of `Put` touches only the inbound half and the result
channel: it never closes a data channel and forwards no data chunks. -/
theorem putReply_no_dc (penv : PutEnv) :
    dcCloses (putReply penv) = [] ∧ outDatas (putReply penv) = [] := by
  unfold putReply
  split
  · by_cases hrc : 1 ≤ penv.rcAcc <;> simp [dcCloses, outDatas, hrc]
  · simp [dcCloses, outDatas]
  · simp [dcCloses, outDatas]

/-- C8 counterexample: a Put of a directory entry (`type="d"`) with a
caller-supplied data channel performs no close operation on the caller's
channel at all — the code rebinds the local `dc` variable to a fresh closed
channel instead of closing the caller's, so "the caller's data channel is
closed immediately" fails. -/
theorem C8_put_dir_dc_cex :
    dcCloses (putT { dtype := "d", dcSupplied := true, dcMsgs := [[7]],
                     outAcc := 2, ins := [.dirM []], rcAcc := 1 }) = [] ∧
    putT { dtype := "d", dcSupplied := true, dcMsgs := [[7]],
           outAcc := 2, ins := [.dirM []], rcAcc := 1 } =
      [Ev.closeOut none, Ev.rcDir [], Ev.closeIn none, Ev.closeRc none] := by
  decide

/-- C8 amended: for `Put` with `D.type="d"` the caller's data channel is
ignored rather than closed — a fresh already-closed channel replaces it
locally, the envelope performs no close operation on the caller's channel,
no bytes from it are forwarded to the outbound half, and (when the header
send is accepted) the outbound half is closed immediately after the header
and the envelope proceeds straight to the reply phase. -/
theorem C8_put_dir_dc_amended (penv : PutEnv) (hd : penv.dtype = "d") :
    dcCloses (putT penv) = [] ∧ outDatas (putT penv) = [] ∧
    (1 ≤ penv.outAcc → putT penv = Ev.closeOut none :: putReply penv) := by
  by_cases ho : 1 ≤ penv.outAcc
  · have hput : putT penv = Ev.closeOut none :: putReply penv := by
      simp [putT, ho, hd]
    have haux := putReply_no_dc penv
    refine ⟨?_, ?_, fun _ => hput⟩
    · rw [hput]; exact haux.1
    · rw [hput]; exact haux.2
  · have hput : putT penv = [Ev.closeIn penv.outErr] := by
      simp [putT, ho]
    exact ⟨by rw [hput]; rfl, by rw [hput]; rfl, fun h => absurd h ho⟩

/-- Witness for the amended C8 at a concrete directory Put with a supplied
data channel carrying one chunk. -/
theorem C8_put_dir_dc_amended_wit :
    dcCloses (putT { dtype := "d", dcSupplied := true, dcMsgs := [[7]],
                     outAcc := 2, ins := [.dirM []], rcAcc := 1 }) = [] ∧
    outDatas (putT { dtype := "d", dcSupplied := true, dcMsgs := [[7]],
                     outAcc := 2, ins := [.dirM []], rcAcc := 1 }) = [] := by
  have h := C8_put_dir_dc_amended
    { dtype := "d", dcSupplied := true, dcMsgs := [[7]],
      outAcc := 2, ins := [.dirM []], rcAcc := 1 } rfl
  exact ⟨h.1, h.2.1⟩
